import Mathlib

/-!
Verification of the constant-evaluation and canonicalization subsystem
(`compiler/rustc_const_eval/src/const_eval/mod.rs` and
`compiler/rustc_middle/src/ty/consts.rs`).

The development shallowly embeds the data model (valtrees, constants,
constant kinds) and the operations the specification describes.  Code of
the repository that sits outside the two provided files (the valtree
builder in `valtrees.rs`, `ConstKind::{try_eval_for_typeck, eval}` in
`kind.rs`, the interpreter context) is modelled from the specification,
with a doc comment saying so; everything else is translated directly from
the source.
-/

namespace RustcConstEval

/-- A scalar integer as stored in a valtree leaf: raw bits together with
the size (in bytes) of the integer type, mirroring `ty::ScalarInt`. -/
structure ScalarInt where
  bits : Nat
  size : Nat
deriving DecidableEq

/-- The type `ty::ValTree`: canonical recursive value, either a scalar leaf or a
branch holding an ordered sequence of subtrees.  The zero-sized marker is
the empty branch (`ValTree::zst()`). -/
inductive ValTree where
  | leaf (s : ScalarInt)
  | branch (subtrees : List ValTree)

/-- The constructor `ValTree::zst()`: the canonical zero-sized value. -/
def ValTree.zst : ValTree := .branch []

/-- Modelled from the spec: the observable, fully evaluated compile-time
value held at an interpreter memory place, as the Valtree Builder sees it
(spec 4.4): a scalar primitive, a fixed-size aggregate (array, tuple,
struct-like record) with its fields in declaration order, or an enum
value carrying the active variant index and that variant's fields. -/
inductive MirValue where
  | scalar (s : ScalarInt)
  | aggregate (fields : List MirValue)
  | enumVariant (idx : Nat) (fields : List MirValue)

/-- Structural induction principle for `MirValue` giving the inductive
hypothesis for every member of a field list. -/
theorem MirValue.inductionOn {motive : MirValue → Prop}
    (scalar : ∀ s, motive (.scalar s))
    (aggregate : ∀ fs, (∀ v ∈ fs, motive v) → motive (.aggregate fs))
    (enumVariant : ∀ i fs, (∀ v ∈ fs, motive v) → motive (.enumVariant i fs)) :
    ∀ v, motive v
  | .scalar s => scalar s
  | .aggregate fs =>
      aggregate fs (fun v h => MirValue.inductionOn scalar aggregate enumVariant v)
  | .enumVariant i fs =>
      enumVariant i fs (fun v h => MirValue.inductionOn scalar aggregate enumVariant v)
termination_by v => sizeOf v
decreasing_by
  all_goals simp_wf
  all_goals first
  | (have hlt := List.sizeOf_lt_of_mem h
     omega)

/-- Modelled from the spec: the static type directing valtree
construction and destructuring — a scalar primitive of a given byte
width, a tuple with per-field types, an array with element type and
length, or an ADT (struct/enum) given by the field types of each of its
variants (spec 3, 4.4, 4.5). -/
inductive MirType where
  | scalarTy (size : Nat)
  | tupleTy (elems : List MirType)
  | arrayTy (elem : MirType) (len : Nat)
  | adtTy (variants : List (List MirType))

mutual

/-- Number of nodes (leaves and branches both) of the canonical tree of a
value: a scalar is one leaf; an aggregate is one branch plus its fields'
nodes; an enum value is one branch, one leaf for the prepended variant
index, plus its fields' nodes (spec 4.4). -/
def MirValue.numNodes : MirValue → Nat
  | .scalar _ => 1
  | .aggregate fs => 1 + numNodesList fs
  | .enumVariant _ fs => 2 + numNodesList fs
termination_by v => sizeOf v

/-- Total node count of a list of field values. -/
def numNodesList : List MirValue → Nat
  | [] => 0
  | v :: vs => v.numNodes + numNodesList vs
termination_by vs => sizeOf vs

end

/-- Byte width of the scalar leaf encoding a variant index.  The source
stores the variant index as a `u32` (`ScalarInt::from(variant.as_u32())`). -/
def discrSize : Nat := 4

/-- The scalar leaf encoding a variant index, reduced modulo the `u32`
range as the source's cast does. -/
def discrScalar (i : Nat) : ScalarInt := ⟨i % 2 ^ 32, discrSize⟩

mutual

/-- Modelled from the spec: the canonical tree of a fully evaluated value
(spec 4.4, ignoring the node budget): scalars become leaves, aggregates
become branches over their fields in declaration order, and enum values
become branches with the variant-index leaf prepended to the variant's
fields. -/
def MirValue.toValTree : MirValue → ValTree
  | .scalar s => .leaf s
  | .aggregate fs => .branch (toValTreeList fs)
  | .enumVariant i fs => .branch (.leaf (discrScalar i) :: toValTreeList fs)
termination_by v => sizeOf v

/-- Canonical trees of a list of field values, in order. -/
def toValTreeList : List MirValue → List ValTree
  | [] => []
  | v :: vs => v.toValTree :: toValTreeList vs
termination_by vs => sizeOf vs

end

/-- The ceiling `VALTREE_MAX_NODES` (`const_eval/mod.rs`): type-level constants with
more than this many nodes are forbidden. -/
def VALTREE_MAX_NODES : Nat := 100000

/-- The error type `ValTreeCreationError` (`const_eval/mod.rs`). -/
inductive ValTreeCreationError where
  | NodesOverflow
  | NonSupportedType
  | Other
deriving DecidableEq

/-- Modelled from the spec: charging one constructed node (leaf or
branch) against the shared budget — if the running counter would exceed
the ceiling, abort with `NodesOverflow`; otherwise the counter advances
(spec 4.4). -/
def bumpNode (n : Nat) : Except ValTreeCreationError Nat :=
  if VALTREE_MAX_NODES < n + 1 then .error .NodesOverflow else .ok (n + 1)

mutual

/-- Modelled from the spec: `const_to_valtree_inner` (`valtrees.rs`, not
in the provided sources), the type-directed recursive valtree build of
spec 4.4 over an already evaluated value.  The node counter is threaded
through the whole recursion and charged once per node produced (leaf or
branch); when it would exceed the ceiling the build aborts immediately
with `NodesOverflow`.  For an enum value the variant-index leaf is
prepended to the variant's fields. -/
def const_to_valtree_inner : MirValue → Nat → Except ValTreeCreationError (ValTree × Nat)
  | .scalar s, n =>
      match bumpNode n with
      | .error e => .error e
      | .ok n1 => .ok (.leaf s, n1)
  | .aggregate fs, n =>
      match bumpNode n with
      | .error e => .error e
      | .ok n1 =>
          match valtree_branches fs n1 with
          | .error e => .error e
          | .ok (ts, n2) => .ok (.branch ts, n2)
  | .enumVariant i fs, n =>
      match bumpNode n with
      | .error e => .error e
      | .ok n1 =>
          match bumpNode n1 with
          | .error e => .error e
          | .ok n2 =>
              match valtree_branches fs n2 with
              | .error e => .error e
              | .ok (ts, n3) => .ok (.branch (.leaf (discrScalar i) :: ts), n3)
termination_by v _n => sizeOf v

/-- Modelled from the spec: the `branches` helper of the builder — build
one subtree per field in declaration order, threading the node counter
left to right. -/
def valtree_branches : List MirValue → Nat → Except ValTreeCreationError (List ValTree × Nat)
  | [], n => .ok ([], n)
  | v :: vs, n =>
      match const_to_valtree_inner v n with
      | .error e => .error e
      | .ok (t, n1) =>
          match valtree_branches vs n1 with
          | .error e => .error e
          | .ok (ts, n2) => .ok (t :: ts, n2)
termination_by vs _n => sizeOf vs

end

/-- Field-list behaviour of the budgeted build: with enough remaining
budget the fields build completely and the counter advances by their
total node count; with the counter still within the ceiling but the
fields' total pushing past it, the build aborts with `NodesOverflow`. -/
theorem valtree_branches_spec (fs : List MirValue)
    (ih : ∀ v ∈ fs, ∀ n : Nat,
      (n + v.numNodes ≤ VALTREE_MAX_NODES →
        const_to_valtree_inner v n = .ok (v.toValTree, n + v.numNodes)) ∧
      (VALTREE_MAX_NODES < n + v.numNodes →
        const_to_valtree_inner v n = .error .NodesOverflow)) :
    ∀ n : Nat,
      (n + numNodesList fs ≤ VALTREE_MAX_NODES →
        valtree_branches fs n = .ok (toValTreeList fs, n + numNodesList fs)) ∧
      (n ≤ VALTREE_MAX_NODES → VALTREE_MAX_NODES < n + numNodesList fs →
        valtree_branches fs n = .error .NodesOverflow) := by
  induction fs with
  | nil =>
      intro n
      refine ⟨fun _h => ?_, fun h1 h2 => ?_⟩
      · simp [valtree_branches, numNodesList, toValTreeList]
      · simp [numNodesList] at h2
        omega
  | cons v vs ihl =>
      have hv := ih v (List.mem_cons_self v vs)
      have hvs := ihl (fun w hw => ih w (List.mem_cons_of_mem v hw))
      intro n
      refine ⟨fun h => ?_, fun h1 h2 => ?_⟩
      · simp only [numNodesList] at h ⊢
        have hhead := (hv n).1 (by omega)
        have htail := (hvs (n + v.numNodes)).1 (by omega)
        simp only [valtree_branches, hhead, htail, toValTreeList]
        congr 2
        omega
      · simp only [numNodesList] at h2
        by_cases hc : VALTREE_MAX_NODES < n + v.numNodes
        · have hhead := (hv n).2 hc
          simp [valtree_branches, hhead]
        · have hhead := (hv n).1 (by omega)
          have htail := (hvs (n + v.numNodes)).2 (by omega) (by omega)
          simp [valtree_branches, hhead, htail]

/-- Behaviour of the budgeted build from any starting counter: it
succeeds with the complete canonical tree exactly when the total node
count fits the remaining budget, and otherwise fails with
`NodesOverflow`. -/
theorem const_to_valtree_inner_spec (v : MirValue) :
    ∀ n : Nat,
      (n + v.numNodes ≤ VALTREE_MAX_NODES →
        const_to_valtree_inner v n = .ok (v.toValTree, n + v.numNodes)) ∧
      (VALTREE_MAX_NODES < n + v.numNodes →
        const_to_valtree_inner v n = .error .NodesOverflow) := by
  induction v using MirValue.inductionOn with
  | scalar s =>
      intro n
      refine ⟨fun h => ?_, fun h => ?_⟩
      · simp only [MirValue.numNodes] at h ⊢
        simp only [const_to_valtree_inner, bumpNode, if_neg (by omega : ¬ VALTREE_MAX_NODES < n + 1)]
        simp [MirValue.toValTree]
      · simp only [MirValue.numNodes] at h
        simp only [const_to_valtree_inner, bumpNode, if_pos (by omega : VALTREE_MAX_NODES < n + 1)]
  | aggregate fs ih =>
      have hlist := valtree_branches_spec fs ih
      intro n
      refine ⟨fun h => ?_, fun h => ?_⟩
      · simp only [MirValue.numNodes] at h ⊢
        have hbr := (hlist (n + 1)).1 (by omega)
        simp only [const_to_valtree_inner, bumpNode,
          if_neg (by omega : ¬ VALTREE_MAX_NODES < n + 1), hbr, MirValue.toValTree]
        congr 2
        omega
      · simp only [MirValue.numNodes] at h
        by_cases hc : VALTREE_MAX_NODES < n + 1
        · simp only [const_to_valtree_inner, bumpNode, if_pos hc]
        · have hbr := (hlist (n + 1)).2 (by omega) (by omega)
          simp only [const_to_valtree_inner, bumpNode, if_neg hc, hbr]
  | enumVariant i fs ih =>
      have hlist := valtree_branches_spec fs ih
      intro n
      refine ⟨fun h => ?_, fun h => ?_⟩
      · simp only [MirValue.numNodes] at h ⊢
        have hbr := (hlist (n + 1 + 1)).1 (by omega)
        simp only [const_to_valtree_inner, bumpNode,
          if_neg (by omega : ¬ VALTREE_MAX_NODES < n + 1),
          if_neg (by omega : ¬ VALTREE_MAX_NODES < n + 1 + 1), hbr, MirValue.toValTree]
        congr 2
        omega
      · simp only [MirValue.numNodes] at h
        by_cases hc1 : VALTREE_MAX_NODES < n + 1
        · simp only [const_to_valtree_inner, bumpNode, if_pos hc1]
        · by_cases hc2 : VALTREE_MAX_NODES < n + 1 + 1
          · simp only [const_to_valtree_inner, bumpNode, if_neg hc1, if_pos hc2]
          · have hbr := (hlist (n + 1 + 1)).2 (by omega) (by omega)
            simp only [const_to_valtree_inner, bumpNode, if_neg hc1, if_neg hc2, hbr]

/-- A nested single-field aggregate of depth `k`, whose canonical tree
has exactly `k + 1` nodes — used to exhibit builds on either side of the
node ceiling. -/
def chainValue : Nat → MirValue
  | 0 => .scalar ⟨0, 1⟩
  | k + 1 => .aggregate [chainValue k]

theorem chainValue_numNodes (k : Nat) : (chainValue k).numNodes = k + 1 := by
  induction k with
  | zero => simp [chainValue, MirValue.numNodes]
  | succ k ih => simp [chainValue, MirValue.numNodes, numNodesList, ih]
    <;> omega

/-- C2: node-budget enforcement — starting from a zero counter, a value
whose canonical tree has more than `VALTREE_MAX_NODES` nodes (leaves and
branches both counted) makes the build return `NodesOverflow`; a value
whose tree fits the ceiling (in particular one of exactly the ceiling
number of nodes) builds successfully; and any successful build yields the
complete canonical tree, never a partial one. -/
theorem C2_node_budget (v : MirValue) :
    (VALTREE_MAX_NODES < v.numNodes →
      const_to_valtree_inner v 0 = .error .NodesOverflow) ∧
    (v.numNodes ≤ VALTREE_MAX_NODES →
      const_to_valtree_inner v 0 = .ok (v.toValTree, v.numNodes)) ∧
    (∀ t m, const_to_valtree_inner v 0 = .ok (t, m) →
      t = v.toValTree ∧ m = v.numNodes) := by
  have hspec := const_to_valtree_inner_spec v 0
  refine ⟨fun h => ?_, fun h => ?_, fun t m hok => ?_⟩
  · exact hspec.2 (by omega)
  · have := hspec.1 (by omega)
    simpa using this
  · by_cases hle : v.numNodes ≤ VALTREE_MAX_NODES
    · have := hspec.1 (by omega)
      rw [Nat.zero_add] at this
      rw [this] at hok
      exact ⟨(Prod.mk.injEq _ _ _ _ ▸ Except.ok.inj hok).1.symm ▸ rfl,
        by cases Except.ok.inj hok; simp_all⟩
    · have := hspec.2 (by omega)
      rw [this] at hok
      cases hok

/-- Witness for C2: a one-node scalar builds to its leaf with count 1,
and the chain value with `VALTREE_MAX_NODES + 1` nodes overflows. -/
theorem C2_node_budget_witness :
    const_to_valtree_inner (.scalar ⟨5, 4⟩) 0 =
        .ok (.leaf ⟨5, 4⟩, (MirValue.scalar ⟨5, 4⟩).numNodes) ∧
    const_to_valtree_inner (chainValue VALTREE_MAX_NODES) 0 =
        .error .NodesOverflow := by
  constructor
  · have h := (C2_node_budget (.scalar ⟨5, 4⟩)).2.1
      (by simp [MirValue.numNodes, VALTREE_MAX_NODES])
    simpa [MirValue.toValTree] using h
  · exact (C2_node_budget (chainValue VALTREE_MAX_NODES)).1
      (by rw [chainValue_numNodes]; omega)

mutual

/-- Modelled from the spec: the value `v` is a fully evaluated inhabitant
of static type `t` as the type-directed builder assumes (spec 4.4): a
scalar carries exactly the bits of its type's width; a tuple's fields
match its element types pointwise; an array's elements all have the
element type and their number is the array length; an enum value's
variant index selects an actual variant (indices fit the `u32` the
discriminant leaf is stored in) and its fields match that variant's field
types. -/
inductive WellTyped : MirValue → MirType → Prop
  | scalar {s : ScalarInt} {sz : Nat} :
      s.size = sz → WellTyped (.scalar s) (.scalarTy sz)
  | tuple {fs : List MirValue} {ts : List MirType} :
      WellTypedList fs ts → WellTyped (.aggregate fs) (.tupleTy ts)
  | array {fs : List MirValue} {elem : MirType} {len : Nat} :
      WellTypedAll fs elem → fs.length = len →
      WellTyped (.aggregate fs) (.arrayTy elem len)
  | enum {i : Nat} {fs : List MirValue} {variants : List (List MirType)}
      {fieldTys : List MirType} :
      variants.length ≤ 2 ^ 32 →
      variants.get? i = some fieldTys →
      WellTypedList fs fieldTys →
      WellTyped (.enumVariant i fs) (.adtTy variants)

/-- Pointwise typing of a field list against a type list. -/
inductive WellTypedList : List MirValue → List MirType → Prop
  | nil : WellTypedList [] []
  | cons {v : MirValue} {t : MirType} {vs : List MirValue} {ts : List MirType} :
      WellTyped v t → WellTypedList vs ts → WellTypedList (v :: vs) (t :: ts)

/-- All elements of a list typed at one element type. -/
inductive WellTypedAll : List MirValue → MirType → Prop
  | nil {t : MirType} : WellTypedAll [] t
  | cons {v : MirValue} {t : MirType} {vs : List MirValue} :
      WellTyped v t → WellTypedAll vs t → WellTypedAll (v :: vs) t

end

/-- Canonical-tree injectivity over a type list: two field lists typed
against the same type list with equal canonical trees are equal. -/
theorem toValTreeList_inj_of_wellTypedList (fs1 : List MirValue)
    (ih : ∀ v ∈ fs1, ∀ t v2, WellTyped v t → WellTyped v2 t →
      v.toValTree = v2.toValTree → v = v2) :
    ∀ ts fs2, WellTypedList fs1 ts → WellTypedList fs2 ts →
      toValTreeList fs1 = toValTreeList fs2 → fs1 = fs2 := by
  induction fs1 with
  | nil =>
      intro ts fs2 h1 h2 _heq
      cases h1
      cases h2
      rfl
  | cons v vs ihl =>
      intro ts fs2 h1 h2 heq
      cases h1 with
      | cons hv hvs =>
          cases h2 with
          | cons hw hws =>
              simp only [toValTreeList, List.cons.injEq] at heq
              have hhead := ih v (List.mem_cons_self v vs) _ _ hv hw heq.1
              have htail := ihl (fun u hu => ih u (List.mem_cons_of_mem v hu))
                _ _ hvs hws heq.2
              rw [hhead, htail]

/-- Canonical-tree injectivity over a single element type: two element
lists all typed at the same element type with equal canonical trees are
equal. -/
theorem toValTreeList_inj_of_wellTypedAll (fs1 : List MirValue)
    (ih : ∀ v ∈ fs1, ∀ t v2, WellTyped v t → WellTyped v2 t →
      v.toValTree = v2.toValTree → v = v2) :
    ∀ elem fs2, WellTypedAll fs1 elem → WellTypedAll fs2 elem →
      toValTreeList fs1 = toValTreeList fs2 → fs1 = fs2 := by
  induction fs1 with
  | nil =>
      intro elem fs2 _h1 _h2 heq
      cases fs2 with
      | nil => rfl
      | cons w ws => simp [toValTreeList] at heq
  | cons v vs ihl =>
      intro elem fs2 h1 h2 heq
      cases fs2 with
      | nil => simp [toValTreeList] at heq
      | cons w ws =>
          cases h1 with
          | cons hv hvs =>
              cases h2 with
              | cons hw hws =>
                  simp only [toValTreeList, List.cons.injEq] at heq
                  have hhead := ih v (List.mem_cons_self v vs) _ _ hv hw heq.1
                  have htail := ihl (fun u hu => ih u (List.mem_cons_of_mem v hu))
                    elem _ hvs hws heq.2
                  rw [hhead, htail]

/-- Canonical trees are injective on well-typed values of a common type:
structurally equal valtrees denote the same value. -/
theorem toValTree_inj (v1 : MirValue) :
    ∀ t v2, WellTyped v1 t → WellTyped v2 t →
      v1.toValTree = v2.toValTree → v1 = v2 := by
  induction v1 using MirValue.inductionOn with
  | scalar s =>
      intro t v2 h1 h2 heq
      cases h1
      cases h2
      simp only [MirValue.toValTree, ValTree.leaf.injEq] at heq
      rw [heq]
  | aggregate fs ih =>
      intro t v2 h1 h2 heq
      cases h1 with
      | tuple hts =>
          cases h2 with
          | tuple hts2 =>
              simp only [MirValue.toValTree, ValTree.branch.injEq] at heq
              rw [toValTreeList_inj_of_wellTypedList fs ih _ _ hts hts2 heq]
      | array hall hlen =>
          cases h2 with
          | array hall2 hlen2 =>
              simp only [MirValue.toValTree, ValTree.branch.injEq] at heq
              rw [toValTreeList_inj_of_wellTypedAll fs ih _ _ hall hall2 heq]
  | enumVariant i fs ih =>
      intro t v2 h1 h2 heq
      cases h1 with
      | enum hlen1 hget1 hts1 =>
          cases h2 with
          | enum hlen2 hget2 hts2 =>
              rename_i j gs fieldTys2
              simp only [MirValue.toValTree, ValTree.branch.injEq,
                List.cons.injEq, ValTree.leaf.injEq, discrScalar,
                ScalarInt.mk.injEq] at heq
              have hmod : i % 2 ^ 32 = j % 2 ^ 32 := by tauto
              have htl : toValTreeList fs = toValTreeList gs := by tauto
              obtain ⟨hlt1, -⟩ := List.get?_eq_some.mp hget1
              obtain ⟨hlt2, -⟩ := List.get?_eq_some.mp hget2
              have hij : i = j := by
                rwa [Nat.mod_eq_of_lt (lt_of_lt_of_le hlt1 hlen1),
                  Nat.mod_eq_of_lt (lt_of_lt_of_le hlt2 hlen2)] at hmod
              subst hij
              rw [hget1] at hget2
              injection hget2 with hfty
              subst hfty
              rw [toValTreeList_inj_of_wellTypedList fs ih _ _ hts1 hts2 htl]

/-- C1: canonical-value soundness — for two fully evaluated values of the
same type, their canonical valtrees are structurally equal exactly when
the values are observably equal; in particular no two structurally
distinct valtrees of one type denote the same value. -/
theorem C1_canonical_value_soundness (v1 v2 : MirValue) (t : MirType)
    (h1 : WellTyped v1 t) (h2 : WellTyped v2 t) :
    v1.toValTree = v2.toValTree ↔ v1 = v2 := by
  constructor
  · exact toValTree_inj v1 t v2 h1 h2
  · intro h
    rw [h]

/-- Witness for C1: applied to two `u32`-typed scalar values `1` and `1`. -/
theorem C1_canonical_value_soundness_witness :
    ((MirValue.scalar ⟨1, 4⟩).toValTree = (MirValue.scalar ⟨1, 4⟩).toValTree ↔
      MirValue.scalar ⟨1, 4⟩ = MirValue.scalar ⟨1, 4⟩) :=
  C1_canonical_value_soundness (.scalar ⟨1, 4⟩) (.scalar ⟨1, 4⟩) (.scalarTy 4)
    (WellTyped.scalar rfl) (WellTyped.scalar rfl)

/-- An opaque interned type handle (`Ty<'tcx>`). -/
structure Ty where
  id : Nat
deriving DecidableEq

/-- An opaque `ErrorGuaranteed` token: proof that a diagnostic was
already reported. -/
structure ErrorGuaranteed where
  token : Nat
deriving DecidableEq

/-- An opaque parameter environment handle (`ParamEnv<'tcx>`). -/
structure ParamEnv where
  id : Nat
deriving DecidableEq

/-- The type `ty::InferConst`: an ordinary or a fresh inference
variable. -/
inductive InferConst where
  | Var (vid : Nat)
  | Fresh (idx : Nat)
deriving DecidableEq

/-- The variant set of `ty::ConstKind` (`kind.rs`), as listed by the
spec's Constant Kind state machine: payloads that the claims never
inspect (substitutions, placeholder ids, symbolic expressions) are
opaque numbers. -/
inductive ConstKind where
  | Param (index : Nat) (name : String)
  | Infer (v : InferConst)
  | Bound (debruijn : Nat) (var : Nat)
  | Placeholder (id : Nat)
  | Unevaluated (defId : Nat) (substs : Nat)
  | Value (valtree : ValTree)
  | Expr (e : Nat)
  | Error (guar : ErrorGuaranteed)

/-- The type `ty::Const` / `ConstData`: a typed constant value.
Interning makes structural equality of the `(ty, kind)` pair coincide
with identity of the handle, so the model uses a plain structure with
structural equality. -/
structure Const where
  ty : Ty
  kind : ConstKind

/-- `Const::new` (`consts.rs`): the unique interned constant for a kind
and type. -/
def Const.new (kind : ConstKind) (ty : Ty) : Const := ⟨ty, kind⟩

/-- `Const::new_param` (`consts.rs`). -/
def Const.new_param (index : Nat) (name : String) (ty : Ty) : Const :=
  Const.new (.Param index name) ty

/-- `Const::new_bound` (`consts.rs`). -/
def Const.new_bound (debruijn : Nat) (var : Nat) (ty : Ty) : Const :=
  Const.new (.Bound debruijn var) ty

/-- `Const::new_unevaluated` (`consts.rs`). -/
def Const.new_unevaluated (defId substs : Nat) (ty : Ty) : Const :=
  Const.new (.Unevaluated defId substs) ty

/-- `Const::new_value` (`consts.rs`). -/
def Const.new_value (val : ValTree) (ty : Ty) : Const :=
  Const.new (.Value val) ty

/-- `Const::new_error` (`consts.rs`). -/
def Const.new_error (guar : ErrorGuaranteed) (ty : Ty) : Const :=
  Const.new (.Error guar) ty

/-- Modelled from the spec: the interpreter-evaluation entry point that
`ConstKind::try_eval_for_typeck` (`kind.rs`, not in the provided
sources) consults for kinds that are not yet concrete values (spec 4.3):
`none` when evaluation is currently impossible (open generics),
`some (ok valtree)` on successful reduction, `some (error token)` on
typed failure. -/
structure EvalOracle where
  evalUnevaluated : Nat → Nat → ParamEnv → Option (Except ErrorGuaranteed ValTree)
  evalExpr : Nat → ParamEnv → Option (Except ErrorGuaranteed ValTree)

/-- Modelled from the spec: `ConstKind::try_eval_for_typeck` (`kind.rs`,
not in the provided sources) — only the deferred kinds (`Unevaluated`
and the symbolic `Expr`) attempt reduction; `Value`, `Error` and the
unresolved variable kinds never do (spec 4.3). -/
def ConstKind.try_eval_for_typeck (k : ConstKind) (o : EvalOracle) (env : ParamEnv) :
    Option (Except ErrorGuaranteed ValTree) :=
  match k with
  | .Unevaluated defId substs => o.evalUnevaluated defId substs env
  | .Expr e => o.evalExpr e env
  | _ => none

/-- `Const::eval` (`consts.rs`): try to evaluate the constant; on
success intern a `Value` constant of the same type, on typed failure an
`Error` constant, and if evaluation is not possible return the constant
unchanged. -/
def Const.eval (c : Const) (o : EvalOracle) (env : ParamEnv) : Const :=
  match c.kind.try_eval_for_typeck o env with
  | some (.ok val) => Const.new_value val c.ty
  | some (.error guar) => Const.new_error guar c.ty
  | none => c

/-- C4: evaluation is classified and idempotent — successful reduction
yields a `Value` kind, typed failure an `Error` kind, impossibility
returns the constant unchanged, and in every case evaluating the result
again changes nothing. -/
theorem C4_eval_idempotent (c : Const) (o : EvalOracle) (env : ParamEnv) :
    (∀ val, c.kind.try_eval_for_typeck o env = some (.ok val) →
      (c.eval o env).kind = .Value val) ∧
    (∀ guar, c.kind.try_eval_for_typeck o env = some (.error guar) →
      (c.eval o env).kind = .Error guar) ∧
    (c.kind.try_eval_for_typeck o env = none → c.eval o env = c) ∧
    (c.eval o env).eval o env = c.eval o env := by
  refine ⟨fun val h => ?_, fun guar h => ?_, fun h => ?_, ?_⟩
  · simp [Const.eval, h, Const.new_value, Const.new]
  · simp [Const.eval, h, Const.new_error, Const.new]
  · simp [Const.eval, h]
  · cases h : c.kind.try_eval_for_typeck o env with
    | none => simp [Const.eval, h]
    | some r =>
        cases r with
        | ok val =>
            simp only [Const.eval, h]
            simp [Const.new_value, Const.new, ConstKind.try_eval_for_typeck]
        | error guar =>
            simp only [Const.eval, h]
            simp [Const.new_error, Const.new, ConstKind.try_eval_for_typeck]

/-- A concrete oracle that reduces every deferred constant to the
zero-sized valtree. -/
def oracleExample : EvalOracle :=
  ⟨fun _ _ _ => some (.ok ValTree.zst), fun _ _ => none⟩

/-- Witness for C4: an unevaluated constant under `oracleExample`
evaluates to a `Value` kind and re-evaluation is a fixed point. -/
theorem C4_eval_idempotent_witness :
    ((Const.mk ⟨0⟩ (.Unevaluated 1 2)).eval oracleExample ⟨0⟩).kind =
        .Value ValTree.zst ∧
    ((Const.mk ⟨0⟩ (.Unevaluated 1 2)).eval oracleExample ⟨0⟩).eval oracleExample ⟨0⟩ =
        (Const.mk ⟨0⟩ (.Unevaluated 1 2)).eval oracleExample ⟨0⟩ :=
  ⟨(C4_eval_idempotent (Const.mk ⟨0⟩ (.Unevaluated 1 2)) oracleExample ⟨0⟩).1
      ValTree.zst rfl,
   (C4_eval_idempotent (Const.mk ⟨0⟩ (.Unevaluated 1 2)) oracleExample ⟨0⟩).2.2.2⟩

/-- An opaque source span. -/
structure Span where
  id : Nat
deriving DecidableEq

/-- The cache key `GlobalId`: which instance, and optionally which
promoted constant within it. -/
structure GlobalId where
  instanceDefId : Nat
  promoted : Option Nat

/-- An opaque already-reported hard evaluation error (the `Err` side of
`EvalToValTreeResult`). -/
structure EvalError where
  id : Nat
deriving DecidableEq

/-- The diagnostic `MaxNumNodesInConstErr` (`errors.rs`): carries the
declaration span when the definition is local, and the display form of
the global constant id. -/
structure MaxNumNodesInConstErr where
  span : Option Span
  global_const_id : String
deriving DecidableEq

/-- The collaborators of `eval_to_valtree` as functions of the constant's
identity: the raw allocation-evaluation query, the declaration span
lookup (`span_if_local`, `some` exactly when the definition is local),
and the display form of the id. -/
structure ValtreeQueryCtx where
  eval_to_allocation_raw : GlobalId → Except EvalError MirValue
  span_if_local : Nat → Option Span
  display : GlobalId → String

/-- `eval_to_valtree` (`const_eval/mod.rs`): propagate a failure of the
allocation query; otherwise run the valtree builder on the evaluated
place and degrade every builder failure to `Ok(None)`, emitting exactly
one `MaxNumNodesInConstErr` diagnostic on `NodesOverflow` and none on
`NonSupportedType`/`Other`.  The builder is a parameter (its budgeted
model is `const_to_valtree_inner` with a zero counter); emitted
diagnostics are returned alongside the result. -/
def eval_to_valtree (ctx : ValtreeQueryCtx)
    (builder : MirValue → Except ValTreeCreationError ValTree)
    (cid : GlobalId) :
    Except EvalError (Option ValTree) × List MaxNumNodesInConstErr :=
  match ctx.eval_to_allocation_raw cid with
  | .error e => (.error e, [])
  | .ok place =>
      match builder place with
      | .ok valtree => (.ok (some valtree), [])
      | .error .NodesOverflow =>
          (.ok none, [⟨ctx.span_if_local cid.instanceDefId, ctx.display cid⟩])
      | .error .NonSupportedType => (.ok none, [])
      | .error .Other => (.ok none, [])

/-- C3: every valtree-construction failure degrades to `Ok(None)` — with
exactly one diagnostic (carrying the declaration span when local and the
constant's display id) on `NodesOverflow` and none on
`NonSupportedType`/`Other` — while a hard `Err` occurs exactly when the
underlying allocation query fails. -/
theorem C3_eval_to_valtree_degrades (ctx : ValtreeQueryCtx)
    (builder : MirValue → Except ValTreeCreationError ValTree) (cid : GlobalId) :
    (∀ place, ctx.eval_to_allocation_raw cid = .ok place →
      (builder place = .error .NodesOverflow →
        eval_to_valtree ctx builder cid =
          (.ok none, [⟨ctx.span_if_local cid.instanceDefId, ctx.display cid⟩])) ∧
      (builder place = .error .NonSupportedType →
        eval_to_valtree ctx builder cid = (.ok none, [])) ∧
      (builder place = .error .Other →
        eval_to_valtree ctx builder cid = (.ok none, [])) ∧
      (∀ valtree, builder place = .ok valtree →
        eval_to_valtree ctx builder cid = (.ok (some valtree), []))) ∧
    (∀ e, (eval_to_valtree ctx builder cid).1 = .error e ↔
      ctx.eval_to_allocation_raw cid = .error e) := by
  constructor
  · intro place halloc
    refine ⟨fun hb => ?_, fun hb => ?_, fun hb => ?_, fun valtree hb => ?_⟩ <;>
      simp [eval_to_valtree, halloc, hb]
  · intro e
    cases halloc : ctx.eval_to_allocation_raw cid with
    | error e2 => simp [eval_to_valtree, halloc]
    | ok place =>
        cases hb : builder place with
        | ok valtree => simp [eval_to_valtree, halloc, hb]
        | error err => cases err <;> simp [eval_to_valtree, halloc, hb]

/-- A concrete query context: the allocation query succeeds with a
one-node scalar value. -/
def ctxExample : ValtreeQueryCtx :=
  ⟨fun _ => .ok (.scalar ⟨7, 4⟩), fun _ => some ⟨3⟩, fun _ => "N::CONST"⟩

/-- Witness for C3: under `ctxExample`, a builder that overflows yields
`Ok(None)` with exactly one diagnostic, and the real budgeted builder
yields the valtree with no diagnostic. -/
theorem C3_eval_to_valtree_degrades_witness :
    eval_to_valtree ctxExample (fun _ => .error .NodesOverflow) ⟨5, none⟩ =
        (.ok none, [⟨some ⟨3⟩, "N::CONST"⟩]) ∧
    eval_to_valtree ctxExample
        (fun place => (const_to_valtree_inner place 0).map Prod.fst) ⟨5, none⟩ =
        (.ok (some (.leaf ⟨7, 4⟩)), []) := by
  constructor
  · exact ((C3_eval_to_valtree_degrades ctxExample (fun _ => .error .NodesOverflow)
      ⟨5, none⟩).1 (.scalar ⟨7, 4⟩) rfl).1 rfl
  · refine ((C3_eval_to_valtree_degrades ctxExample
      (fun place => (const_to_valtree_inner place 0).map Prod.fst)
      ⟨5, none⟩).1 (.scalar ⟨7, 4⟩) rfl).2.2.2 (.leaf ⟨7, 4⟩) ?_
    have h := (const_to_valtree_inner_spec (.scalar ⟨7, 4⟩) 0).1
      (by simp [MirValue.numNodes, VALTREE_MAX_NODES])
    simp [h, MirValue.toValTree, MirValue.numNodes, Except.map]

/-- A literal node (opaque payload, the `lit.node` the source forwards
to `lit_to_const`). -/
structure Lit where
  node : Nat
deriving DecidableEq

mutual

/-- A HIR expression: its id (the key of the bound-variable-resolution
lookup) and its kind. -/
inductive HirExpr where
  | mk (hirId : Nat) (kind : HirExprKind)

/-- The HIR expression kinds `try_eval_lit_or_param` distinguishes: a
literal, a negated expression (`Unary(Neg, _)`), a path resolved to
`Res::Def(DefKind::ConstParam, def_id)`, a block (with a flag for
"no statements" and its optional tail expression), and everything
else. -/
inductive HirExprKind where
  | lit (l : Lit)
  | neg (inner : HirExpr)
  | constParamPath (defId : Nat)
  | block (stmtsEmpty : Bool) (blockExpr : Option HirExpr)
  | other

end

/-- The id of a HIR expression. -/
def HirExpr.hirId : HirExpr → Nat
  | .mk i _ => i

/-- The kind of a HIR expression. -/
def HirExpr.kind : HirExpr → HirExprKind
  | .mk _ k => k

/-- The type `resolve_bound_vars::ResolvedArg`: how a bound variable
resolved. -/
inductive ResolvedArg where
  | StaticLifetime
  | EarlyBound (defId : Nat)
  | LateBound (debruijn : Nat) (index : Nat) (defId : Nat)
  | Free (scope : Nat) (defId : Nat)
  | Error (guar : ErrorGuaranteed)

/-- Whether an optional resolution is one of the three outcomes
`try_eval_lit_or_param` accepts for a const-parameter path. -/
def isParamResolution : Option ResolvedArg → Bool
  | some (.EarlyBound _) => true
  | some (.LateBound _ _ _) => true
  | some (.Error _) => true
  | _ => false

/-- The fatal internal-compiler-error channel of the `bug!`/`span_bug!`
macros, kept distinct from recoverable results (spec 9). -/
inductive CompilerBug where
  | bug (msg : String)
deriving DecidableEq

/-- The name-resolution and conversion collaborators that
`try_eval_lit_or_param` consults (spec 6): the type of a definition
(`type_of ... subst_identity`), the bound-variable resolution of an
expression id (`named_bound_var`), the literal-to-constant conversion
keyed by `(literal, type, negated)`, and the parent-generics index and
name of a const parameter. -/
structure TyCtxtModel where
  type_of : Nat → Ty
  named_bound_var : Nat → Option ResolvedArg
  lit_to_const : Lit → Ty → Bool → Except Nat Const
  param_index : Nat → Nat
  item_name : Nat → String

/-- `Const::try_eval_lit_or_param` (`consts.rs`): unwrap a trivial
single-expression block wrapper; convert a (possibly negated) literal
via `lit_to_const`, a conversion failure registering a delayed bug and
falling through; resolve a const-parameter path by its bound-variable
resolution (early-bound to `Param`, late-bound to `Bound`, erroneous to
`Error`), any other resolution being a fatal `bug!`; and answer `none`
("not resolvable here") for every other expression. -/
def try_eval_lit_or_param (tcx : TyCtxtModel) (ty : Ty) (expr0 : HirExpr) :
    Except CompilerBug (Option Const) :=
  let expr :=
    match expr0.kind with
    | .block true (some e) => e
    | _ => expr0
  let lit_input : Option (Lit × Bool) :=
    match expr.kind with
    | .lit l => some (l, false)
    | .neg inner =>
        match inner.kind with
        | .lit l => some (l, true)
        | _ => none
    | _ => none
  let lit_result : Option Const :=
    match lit_input with
    | some (l, neg) =>
        match tcx.lit_to_const l ty neg with
        | .ok c => some c
        | .error _ => none
    | none => none
  match lit_result with
  | some c => .ok (some c)
  | none =>
      match expr.kind with
      | .constParamPath defId =>
          let param_ty := tcx.type_of defId
          match tcx.named_bound_var expr.hirId with
          | some (.EarlyBound _) =>
              .ok (some (Const.new_param (tcx.param_index defId)
                (tcx.item_name defId) param_ty))
          | some (.LateBound debruijn index _) =>
              .ok (some (Const.new_bound debruijn index param_ty))
          | some (.Error guar) => .ok (some (Const.new_error guar param_ty))
          | _ => .error (.bug "unexpected bound var resolution")
      | _ => .ok none

/-- C7: a const-generic-parameter path resolves to a `Param` constant
when early-bound, a `Bound` constant with the resolved de Bruijn pair
when late-bound, an `Error` constant when erroneous, and any other
resolution outcome is a fatal internal compiler error, not a recoverable
result. -/
theorem C7_const_param_resolution (tcx : TyCtxtModel) (ty : Ty)
    (hirId defId : Nat) :
    (∀ d, tcx.named_bound_var hirId = some (.EarlyBound d) →
      try_eval_lit_or_param tcx ty (.mk hirId (.constParamPath defId)) =
        .ok (some (Const.new_param (tcx.param_index defId)
          (tcx.item_name defId) (tcx.type_of defId)))) ∧
    (∀ debruijn index d,
      tcx.named_bound_var hirId = some (.LateBound debruijn index d) →
      try_eval_lit_or_param tcx ty (.mk hirId (.constParamPath defId)) =
        .ok (some (Const.new_bound debruijn index (tcx.type_of defId)))) ∧
    (∀ guar, tcx.named_bound_var hirId = some (.Error guar) →
      try_eval_lit_or_param tcx ty (.mk hirId (.constParamPath defId)) =
        .ok (some (Const.new_error guar (tcx.type_of defId)))) ∧
    (isParamResolution (tcx.named_bound_var hirId) = false →
      try_eval_lit_or_param tcx ty (.mk hirId (.constParamPath defId)) =
        .error (.bug "unexpected bound var resolution")) := by
  refine ⟨fun d h => ?_, fun debruijn index d h => ?_, fun guar h => ?_, fun h => ?_⟩
  · simp [try_eval_lit_or_param, HirExpr.kind, HirExpr.hirId, h]
  · simp [try_eval_lit_or_param, HirExpr.kind, HirExpr.hirId, h]
  · simp [try_eval_lit_or_param, HirExpr.kind, HirExpr.hirId, h]
  · cases hres : tcx.named_bound_var hirId with
    | none => simp [try_eval_lit_or_param, HirExpr.kind, HirExpr.hirId, hres]
    | some r =>
        cases r <;>
          simp_all [isParamResolution, try_eval_lit_or_param, HirExpr.kind,
            HirExpr.hirId, hres]

/-- A concrete resolution context whose parameter expression is
early-bound. -/
def tcxExample : TyCtxtModel :=
  ⟨fun d => ⟨d⟩, fun _ => some (.EarlyBound 9), fun _ _ _ => .error 0,
   fun _ => 2, fun _ => "N"⟩

/-- Witness for C7: under `tcxExample`, the const-parameter path with
definition id 4 resolves to the `Param` constant of index 2 and the
parameter definition's own type. -/
theorem C7_const_param_resolution_witness :
    try_eval_lit_or_param tcxExample ⟨0⟩ (.mk 1 (.constParamPath 4)) =
      .ok (some (Const.new_param 2 "N" ⟨4⟩)) :=
  (C7_const_param_resolution tcxExample ⟨0⟩ 1 4).1 9 rfl

/-- A type layout, of which the accessors only use the size (in
bytes). -/
structure Layout where
  size : Nat
deriving DecidableEq

/-- The layout and target collaborators the numeric accessors use:
`layout_of` with the layout `Result` already collapsed to an `Option` as
the source's `.ok()?` does, the `with_reveal_all_normalized` environment
transform, and the byte width of the target's `usize`. -/
structure LayoutCtx where
  layout_of : ParamEnv → Ty → Option Layout
  reveal_all : ParamEnv → ParamEnv
  usize_size : Nat

/-- Modelled from the spec: `ConstKind::eval` (`kind.rs`, not in the
provided sources) — the kind after an evaluation attempt: successful
reduction yields `Value`, typed failure yields `Error`, anything not
evaluatable stays unchanged (spec 4.3). -/
def ConstKind.eval (k : ConstKind) (o : EvalOracle) (env : ParamEnv) : ConstKind :=
  match k.try_eval_for_typeck o env with
  | some (.ok val) => .Value val
  | some (.error guar) => .Error guar
  | none => k

/-- Modelled from the spec: `ConstKind::try_to_bits` (`kind.rs`, not in
the provided sources) — a `Value` holding a scalar leaf of exactly the
expected byte width yields its bits, anything else is "not available"
(spec 4.3). -/
def ConstKind.try_to_bits (k : ConstKind) (size : Nat) : Option Nat :=
  match k with
  | .Value (.leaf s) => if s.size = size then some s.bits else none
  | _ => none

/-- Modelled from the spec: `ConstKind::try_to_bool` — a one-byte scalar
leaf holding `0` or `1`. -/
def ConstKind.try_to_bool (k : ConstKind) : Option Bool :=
  match k with
  | .Value (.leaf s) =>
      if s.size = 1 then
        if s.bits = 0 then some false
        else if s.bits = 1 then some true
        else none
      else none
  | _ => none

/-- Modelled from the spec: `ConstKind::try_to_target_usize` — the bits
of a scalar leaf of the target's `usize` width. -/
def ConstKind.try_to_target_usize (k : ConstKind) (lctx : LayoutCtx) : Option Nat :=
  k.try_to_bits lctx.usize_size

/-- `Const::try_eval_bits` (`consts.rs`): assert the passed type equals
the constant's own type (`assert_eq!`, modelled as the fatal channel),
require the layout of the type to be computable (`.ok()?`), and read the
bits of the evaluated kind at the layout's width. -/
def Const.try_eval_bits (c : Const) (o : EvalOracle) (lctx : LayoutCtx)
    (env : ParamEnv) (ty : Ty) : Except CompilerBug (Option Nat) :=
  if c.ty = ty then
    match lctx.layout_of (lctx.reveal_all env) ty with
    | none => .ok none
    | some layout => .ok ((c.kind.eval o env).try_to_bits layout.size)
  else .error (.bug "assertion failed: self.ty() == ty")

/-- `Const::try_eval_bool` (`consts.rs`). -/
def Const.try_eval_bool (c : Const) (o : EvalOracle) (env : ParamEnv) :
    Option Bool :=
  (c.kind.eval o env).try_to_bool

/-- `Const::try_eval_target_usize` (`consts.rs`). -/
def Const.try_eval_target_usize (c : Const) (o : EvalOracle) (lctx : LayoutCtx)
    (env : ParamEnv) : Option Nat :=
  (c.kind.eval o env).try_to_target_usize lctx

/-- `Const::eval_bits` (`consts.rs`): `try_eval_bits` with the "not
available" case escalated to a `bug!`. -/
def Const.eval_bits (c : Const) (o : EvalOracle) (lctx : LayoutCtx)
    (env : ParamEnv) (ty : Ty) : Except CompilerBug Nat :=
  match c.try_eval_bits o lctx env ty with
  | .ok (some v) => .ok v
  | .ok none => .error (.bug "expected bits")
  | .error e => .error e

/-- `Const::eval_target_usize` (`consts.rs`): `try_eval_target_usize`
with the "not available" case escalated to a `bug!`. -/
def Const.eval_target_usize (c : Const) (o : EvalOracle) (lctx : LayoutCtx)
    (env : ParamEnv) : Except CompilerBug Nat :=
  match c.try_eval_target_usize o lctx env with
  | some v => .ok v
  | none => .error (.bug "expected usize")

/-- C8: the `try_` accessors answer "not available" rather than failing
when the layout is not computable or the evaluated kind is not a scalar
leaf of the expected width, and the panicking variants return the value
whenever the corresponding `try_` variant does. -/
theorem C8_accessors_degrade (c : Const) (o : EvalOracle) (lctx : LayoutCtx)
    (env : ParamEnv) :
    (lctx.layout_of (lctx.reveal_all env) c.ty = none →
      c.try_eval_bits o lctx env c.ty = .ok none) ∧
    (∀ layout, lctx.layout_of (lctx.reveal_all env) c.ty = some layout →
      (¬ ∃ s : ScalarInt, c.kind.eval o env = .Value (.leaf s) ∧
          s.size = layout.size) →
      c.try_eval_bits o lctx env c.ty = .ok none) ∧
    ((¬ ∃ s : ScalarInt, c.kind.eval o env = .Value (.leaf s) ∧
        s.size = 1 ∧ s.bits ≤ 1) →
      c.try_eval_bool o env = none) ∧
    ((¬ ∃ s : ScalarInt, c.kind.eval o env = .Value (.leaf s) ∧
        s.size = lctx.usize_size) →
      c.try_eval_target_usize o lctx env = none) ∧
    (∀ v ty, c.try_eval_bits o lctx env ty = .ok (some v) →
      c.eval_bits o lctx env ty = .ok v) ∧
    (∀ v, c.try_eval_target_usize o lctx env = some v →
      c.eval_target_usize o lctx env = .ok v) := by
  refine ⟨fun h => ?_, fun layout h hns => ?_, fun hns => ?_, fun hns => ?_,
    fun v ty h => ?_, fun v h => ?_⟩
  · simp [Const.try_eval_bits, h]
  · simp only [Const.try_eval_bits, h, if_pos rfl]
    cases hk : c.kind.eval o env with
    | Value valtree =>
        cases valtree with
        | leaf s =>
            by_cases hs : s.size = layout.size
            · exact absurd ⟨s, hk, hs⟩ hns
            · simp [ConstKind.try_to_bits, hs]
        | branch ts => simp [ConstKind.try_to_bits]
    | Param i n => simp [ConstKind.try_to_bits]
    | Infer v => simp [ConstKind.try_to_bits]
    | Bound d i => simp [ConstKind.try_to_bits]
    | Placeholder i => simp [ConstKind.try_to_bits]
    | Unevaluated d s => simp [ConstKind.try_to_bits]
    | Expr e => simp [ConstKind.try_to_bits]
    | Error g => simp [ConstKind.try_to_bits]
  · simp only [Const.try_eval_bool]
    cases hk : c.kind.eval o env with
    | Value valtree =>
        cases valtree with
        | leaf s =>
            by_cases hs : s.size = 1
            · by_cases h0 : s.bits = 0
              · exact absurd ⟨s, hk, hs, by omega⟩ hns
              · by_cases h1 : s.bits = 1
                · exact absurd ⟨s, hk, hs, by omega⟩ hns
                · simp [ConstKind.try_to_bool, hs, h0, h1]
            · simp [ConstKind.try_to_bool, hs]
        | branch ts => simp [ConstKind.try_to_bool]
    | Param i n => simp [ConstKind.try_to_bool]
    | Infer v => simp [ConstKind.try_to_bool]
    | Bound d i => simp [ConstKind.try_to_bool]
    | Placeholder i => simp [ConstKind.try_to_bool]
    | Unevaluated d s => simp [ConstKind.try_to_bool]
    | Expr e => simp [ConstKind.try_to_bool]
    | Error g => simp [ConstKind.try_to_bool]
  · simp only [Const.try_eval_target_usize, ConstKind.try_to_target_usize]
    cases hk : c.kind.eval o env with
    | Value valtree =>
        cases valtree with
        | leaf s =>
            by_cases hs : s.size = lctx.usize_size
            · exact absurd ⟨s, hk, hs⟩ hns
            · simp [ConstKind.try_to_bits, hs]
        | branch ts => simp [ConstKind.try_to_bits]
    | Param i n => simp [ConstKind.try_to_bits]
    | Infer v => simp [ConstKind.try_to_bits]
    | Bound d i => simp [ConstKind.try_to_bits]
    | Placeholder i => simp [ConstKind.try_to_bits]
    | Unevaluated d s => simp [ConstKind.try_to_bits]
    | Expr e => simp [ConstKind.try_to_bits]
    | Error g => simp [ConstKind.try_to_bits]
  · simp [Const.eval_bits, h]
  · simp [Const.eval_target_usize, h]

/-- A layout context with no computable layouts and an 8-byte
`usize`. -/
def lctxNone : LayoutCtx := ⟨fun _ _ => none, id, 8⟩

/-- Witness for C8: with no computable layout, `try_eval_bits` on an
unevaluable constant answers `Ok(None)`; with a `usize`-width leaf, the
panicking `eval_target_usize` returns the value the `try_` variant
found. -/
theorem C8_accessors_degrade_witness :
    (Const.mk ⟨0⟩ (.Param 0 "N")).try_eval_bits oracleExample lctxNone ⟨0⟩ ⟨0⟩ =
        .ok none ∧
    (Const.mk ⟨0⟩ (.Value (.leaf ⟨3, 8⟩))).eval_target_usize oracleExample
        lctxNone ⟨0⟩ = .ok 3 := by
  constructor
  · exact (C8_accessors_degrade (Const.mk ⟨0⟩ (.Param 0 "N")) oracleExample
      lctxNone ⟨0⟩).1 rfl
  · exact (C8_accessors_degrade (Const.mk ⟨0⟩ (.Value (.leaf ⟨3, 8⟩)))
      oracleExample lctxNone ⟨0⟩).2.2.2.2.2 3 rfl

/-- C10: `try_eval_bits` asserts that the passed type is the constant's
own type, failing the assertion (the fatal channel) on mismatch instead
of answering `None`; when the types match it always answers through the
ordinary `Ok` channel. -/
theorem C10_try_eval_bits_type_assert (c : Const) (o : EvalOracle)
    (lctx : LayoutCtx) (env : ParamEnv) (ty : Ty) :
    (c.ty ≠ ty →
      c.try_eval_bits o lctx env ty =
        .error (.bug "assertion failed: self.ty() == ty")) ∧
    (c.ty = ty → ∃ r, c.try_eval_bits o lctx env ty = .ok r) := by
  constructor
  · intro h
    simp [Const.try_eval_bits, h]
  · intro h
    simp only [Const.try_eval_bits, if_pos h]
    cases lctx.layout_of (lctx.reveal_all env) ty with
    | none => exact ⟨none, rfl⟩
    | some layout => exact ⟨_, rfl⟩

/-- Witness for C10: a constant of type 0 probed at type 1 trips the
assertion; probed at its own type it answers through `Ok`. -/
theorem C10_try_eval_bits_type_assert_witness :
    (Const.mk ⟨0⟩ (.Param 0 "N")).try_eval_bits oracleExample lctxNone ⟨0⟩ ⟨1⟩ =
        .error (.bug "assertion failed: self.ty() == ty") ∧
    ∃ r, (Const.mk ⟨0⟩ (.Param 0 "N")).try_eval_bits oracleExample lctxNone
        ⟨0⟩ ⟨0⟩ = .ok r :=
  ⟨(C10_try_eval_bits_type_assert (Const.mk ⟨0⟩ (.Param 0 "N")) oracleExample
      lctxNone ⟨0⟩ ⟨1⟩).1 (by simp),
   (C10_try_eval_bits_type_assert (Const.mk ⟨0⟩ (.Param 0 "N")) oracleExample
      lctxNone ⟨0⟩ ⟨0⟩).2 rfl⟩

/-- An interpreter operand: the evaluated value together with its layout
type (`OpTy`). -/
structure OpTy where
  val : MirValue
  ty : MirType

/-- Failures of destructuring: the "unreachable code executed"
classification (`throw_ub!(Unreachable)`), ordinary interpreter-operation
failures, and the fatal `bug!` channel, kept apart per spec 9. -/
inductive DestructureError where
  | unreachableCode
  | invalidOp (msg : String)
  | fatalBug (msg : String)
deriving DecidableEq

/-- The static type of the `i`-th field of an aggregate type: the `i`-th
tuple element type, or the element type of an array at an index within
its length. -/
def fieldType : MirType → Nat → Option MirType
  | .tupleTy ts, i => ts.get? i
  | .arrayTy elem len, i => if i < len then some elem else none
  | _, _ => none

/-- Modelled from the spec: `read_discriminant` — the active variant
index of an enum operand (spec 4.5). -/
def read_discriminant (op : OpTy) : Except DestructureError Nat :=
  match op.val with
  | .enumVariant i _ => .ok i
  | _ => .error (.invalidOp "read_discriminant on a non-enum value")

/-- Modelled from the spec: `operand_downcast` — the operand restricted
to the given variant's payload, typed by that variant's field types
(spec 4.5). -/
def operand_downcast (op : OpTy) (variant : Nat) : Except DestructureError OpTy :=
  match op.val, op.ty with
  | .enumVariant _ fs, .adtTy variants =>
      match variants.get? variant with
      | some fieldTys => .ok ⟨.aggregate fs, .tupleTy fieldTys⟩
      | none => .error (.invalidOp "downcast to a missing variant")
  | _, _ => .error (.invalidOp "downcast on a non-enum operand")

/-- Modelled from the spec: `operand_field` — the `i`-th field operand of
an aggregate, carrying its own layout type (spec 4.5). -/
def operand_field (op : OpTy) (i : Nat) : Except DestructureError OpTy :=
  match op.val with
  | .aggregate fs =>
      match fs.get? i, fieldType op.ty i with
      | some v, some t => .ok ⟨v, t⟩
      | _, _ => .error (.invalidOp "field out of range")
  | _ => .error (.invalidOp "field of a non-aggregate operand")

/-- The value-construction path `op_to_const` applied to a field
operand. -/
def op_to_const (op : OpTy) : MirValue := op.val

/-- An already evaluated `mir::ConstantKind::Val`: a value with its
type. -/
structure MirConstantKind where
  val : MirValue
  ty : MirType

/-- The result record `mir::DestructuredConstant`: the variant index
(absent for non-enum aggregates) and the ordered field constants. -/
structure DestructuredConstant where
  variant : Option Nat
  fields : List MirConstantKind

/-- Field constants for the given indices in order, each derived by
`operand_field` and converted through `op_to_const`, with
`InterpResult`-style early exit. -/
def collectFields (down : OpTy) : List Nat → Except DestructureError (List MirConstantKind)
  | [] => .ok []
  | i :: is =>
      match operand_field down i with
      | .error e => .error e
      | .ok fieldOp =>
          match collectFields down is with
          | .error e => .error e
          | .ok rest => .ok (⟨op_to_const fieldOp, fieldOp.ty⟩ :: rest)

/-- `try_destructure_mir_constant` (`const_eval/mod.rs`): determine the
field count, variant selection and base operand from the static type —
array length (already evaluated in the model), tuple arity, or the
chosen enum variant's field count after reading the discriminant and
downcasting, a zero-variant ADT being unreachable data and any other
type a `bug!` — then collect the field constants `0..field_count` in
declaration order. -/
def try_destructure_mir_constant (val : MirConstantKind) :
    Except DestructureError DestructuredConstant :=
  let op : OpTy := ⟨val.val, val.ty⟩
  match val.ty with
  | .arrayTy _ len =>
      match collectFields op (List.range len) with
      | .error e => .error e
      | .ok fields => .ok ⟨none, fields⟩
  | .adtTy variants =>
      if variants.isEmpty then .error .unreachableCode
      else
        match read_discriminant op with
        | .error e => .error e
        | .ok variant =>
            match operand_downcast op variant with
            | .error e => .error e
            | .ok down =>
                match variants.get? variant with
                | none => .error (.fatalBug "variant index out of bounds")
                | some fieldTys =>
                    match collectFields down (List.range fieldTys.length) with
                    | .error e => .error e
                    | .ok fields => .ok ⟨some variant, fields⟩
  | .tupleTy ts =>
      match collectFields op (List.range ts.length) with
      | .error e => .error e
      | .ok fields => .ok ⟨none, fields⟩
  | .scalarTy _ => .error (.fatalBug "cannot destructure mir constant")

/-- Collecting shifted indices on one operand equals collecting the
original indices on another when their field operations agree under the
shift. -/
theorem collectFields_shift (op1 op2 : OpTy)
    (hshift : ∀ i, operand_field op1 (Nat.succ i) = operand_field op2 i) :
    ∀ idx : List Nat,
      collectFields op1 (idx.map Nat.succ) = collectFields op2 idx := by
  intro idx
  induction idx with
  | nil => rfl
  | cons i is ih =>
      simp only [List.map_cons, collectFields, hshift i, ih]

/-- Dropping the head of a tuple operand shifts its field operation by
one. -/
theorem operand_field_tuple_shift (v : MirValue) (fs : List MirValue)
    (t : MirType) (ts : List MirType) (i : Nat) :
    operand_field ⟨.aggregate (v :: fs), .tupleTy (t :: ts)⟩ (Nat.succ i) =
      operand_field ⟨.aggregate fs, .tupleTy ts⟩ i := by
  simp [operand_field, fieldType]

/-- Dropping the head of an array operand shifts its field operation by
one. -/
theorem operand_field_array_shift (v : MirValue) (fs : List MirValue)
    (elem : MirType) (n : Nat) (i : Nat) :
    operand_field ⟨.aggregate (v :: fs), .arrayTy elem (n + 1)⟩ (Nat.succ i) =
      operand_field ⟨.aggregate fs, .arrayTy elem n⟩ i := by
  simp [operand_field, fieldType, Nat.succ_lt_succ_iff]

/-- Collecting all fields of a tuple operand with matching arities
yields the value-type pairs in declaration order. -/
theorem collectFields_tuple (fs : List MirValue) :
    ∀ ts : List MirType, fs.length = ts.length →
      collectFields ⟨.aggregate fs, .tupleTy ts⟩ (List.range ts.length) =
        .ok (List.zipWith (fun v t => (⟨v, t⟩ : MirConstantKind)) fs ts) := by
  induction fs with
  | nil =>
      intro ts hlen
      cases ts with
      | nil => rfl
      | cons t ts => cases hlen
  | cons v fs ih =>
      intro ts hlen
      cases ts with
      | nil => cases hlen
      | cons t ts =>
          simp only [List.length_cons, List.range_succ_eq_map, collectFields]
          rw [collectFields_shift _ ⟨.aggregate fs, .tupleTy ts⟩
            (operand_field_tuple_shift v fs t ts) (List.range ts.length)]
          rw [ih ts (by simpa using hlen)]
          simp [operand_field, fieldType, op_to_const]

/-- Collecting all fields of an array operand whose element count
matches the type's length yields each element paired with the element
type, in order. -/
theorem collectFields_array (fs : List MirValue) :
    ∀ elem : MirType,
      collectFields ⟨.aggregate fs, .arrayTy elem fs.length⟩
          (List.range fs.length) =
        .ok (fs.map (fun v => (⟨v, elem⟩ : MirConstantKind))) := by
  induction fs with
  | nil => intro elem; rfl
  | cons v fs ih =>
      intro elem
      simp only [List.length_cons, List.range_succ_eq_map, collectFields]
      rw [collectFields_shift _ ⟨.aggregate fs, .arrayTy elem fs.length⟩
        (operand_field_array_shift v fs elem fs.length) (List.range fs.length)]
      rw [ih elem]
      simp [operand_field, fieldType, op_to_const]

/-- Pointwise typing forces equal arities. -/
theorem wellTypedList_length {fs : List MirValue} {ts : List MirType}
    (h : WellTypedList fs ts) : fs.length = ts.length := by
  induction fs generalizing ts with
  | nil => cases h; rfl
  | cons v vs ih =>
      cases h with
      | cons hv hvs => simp [ih hvs]

/-- C5: destructuring determines the field count from the static type
(array length, tuple arity, or the selected enum variant's field count
after reading the discriminant), reports the variant index exactly for
enum-like ADTs and `none` for arrays and tuples, and yields the field
constants in declaration order, each through the `op_to_const`
value-construction path. -/
theorem C5_destructure_fields (fs : List MirValue) :
    (∀ elem len, WellTyped (.aggregate fs) (.arrayTy elem len) →
      try_destructure_mir_constant ⟨.aggregate fs, .arrayTy elem len⟩ =
        .ok ⟨none, fs.map (fun v => (⟨v, elem⟩ : MirConstantKind))⟩) ∧
    (∀ ts, WellTypedList fs ts →
      try_destructure_mir_constant ⟨.aggregate fs, .tupleTy ts⟩ =
        .ok ⟨none, List.zipWith (fun v t => (⟨v, t⟩ : MirConstantKind)) fs ts⟩) ∧
    (∀ i variants fieldTys, variants.get? i = some fieldTys →
      WellTypedList fs fieldTys →
      try_destructure_mir_constant ⟨.enumVariant i fs, .adtTy variants⟩ =
        .ok ⟨some i,
          List.zipWith (fun v t => (⟨v, t⟩ : MirConstantKind)) fs fieldTys⟩) := by
  refine ⟨fun elem len hwt => ?_, fun ts hwtl => ?_, fun i variants fieldTys hget hwtl => ?_⟩
  · cases hwt with
    | array hall hlen =>
        subst hlen
        simp only [try_destructure_mir_constant]
        rw [collectFields_array fs elem]
  · have hlen := wellTypedList_length hwtl
    simp only [try_destructure_mir_constant]
    rw [collectFields_tuple fs ts hlen]
  · have hne : variants ≠ [] := by
      intro hnil
      rw [hnil] at hget
      cases i <;> cases hget
    have hlen := wellTypedList_length hwtl
    have hne2 : ¬ variants.isEmpty = true := by
      simp [List.isEmpty_iff, hne]
    simp only [try_destructure_mir_constant]
    rw [if_neg hne2]
    simp only [read_discriminant, operand_downcast, hget]
    rw [collectFields_tuple fs fieldTys hlen]

/-- Witness for C5: destructuring the tuple constant `(1u32, true)`
yields no variant and the two fields with their types in order. -/
theorem C5_destructure_fields_witness :
    try_destructure_mir_constant
        ⟨.aggregate [.scalar ⟨1, 4⟩, .scalar ⟨1, 1⟩],
          .tupleTy [.scalarTy 4, .scalarTy 1]⟩ =
      .ok ⟨none, [⟨.scalar ⟨1, 4⟩, .scalarTy 4⟩, ⟨.scalar ⟨1, 1⟩, .scalarTy 1⟩]⟩ :=
  (C5_destructure_fields [.scalar ⟨1, 4⟩, .scalar ⟨1, 1⟩]).2.1
    [.scalarTy 4, .scalarTy 1]
    (.cons (.scalar rfl) (.cons (.scalar rfl) .nil))

/-- C6: a constant whose type is an ADT with zero variants destructures
to the "unreachable code executed" classification — being an error, the
result is in particular never a `DestructuredConstant` with an empty
field set. -/
theorem C6_zero_variant_adt (v : MirValue) :
    try_destructure_mir_constant ⟨v, .adtTy []⟩ = .error .unreachableCode := rfl

/-- An interned file-name symbol (`Symbol`): equality of symbols is
equality of the interned names. -/
structure Symbol where
  id : Nat
deriving DecidableEq

/-- The caller-location record the engine lays out for `(file, line,
col)` (the payload of `core::panic::Location`).  The `line` and `col`
inputs of `const_caller_location` are `u32` values. -/
structure CallerLocation where
  file : Symbol
  line : Nat
  col : Nat
deriving DecidableEq

/-- The memory of one evaluation context: the caller-location
allocations it holds, addressed by index (the pointer). -/
structure EvalCx where
  memory : List CallerLocation

/-- `mk_eval_cx` as `const_caller_location` calls it: a fresh evaluation
context (dummy span, reveal-all environment, no access to statics), so
far holding no allocations. -/
def mk_eval_cx : EvalCx := ⟨[]⟩

/-- Modelled from the spec: `ecx.alloc_caller_location`
(`interpret/intrinsics/caller_location.rs`, not in the provided
sources) — builds the location record directly from the triple into a
fresh allocation of the context and returns the place's pointer
(spec 4.6). -/
def alloc_caller_location (ecx : EvalCx) (file : Symbol) (line col : Nat) :
    EvalCx × Nat :=
  (⟨ecx.memory ++ [⟨file, line, col⟩]⟩, ecx.memory.length)

/-- `const_caller_location` (`const_eval/mod.rs`): make a fresh
evaluation context, allocate the caller-location record through
`alloc_caller_location`, intern the allocation recursively — the
outcome of `intern_const_alloc_recursive` (`interpret/intern.rs`, not
in the provided sources) is an abstract collaborator here, and its
failure is the fatal `bug!` — and return the pointer-shaped scalar
value of the place (`ConstValue::Scalar(Scalar::from_maybe_pointer)`),
paired with the context whose interned memory the pointer references. -/
def const_caller_location (intern_is_err : EvalCx → Nat → Bool)
    (file : Symbol) (line col : Nat) :
    Except CompilerBug (Nat × EvalCx) :=
  let ecx := mk_eval_cx
  let allocated := alloc_caller_location ecx file line col
  if intern_is_err allocated.1 allocated.2 then
    .error (.bug "intern_const_alloc_recursive should not error in this case")
  else
    .ok (allocated.2, allocated.1)

/-- The location record a returned pointer-shaped scalar denotes: the
allocation it references in the context's interned memory. -/
def locationRecord (r : Nat × EvalCx) : Option CallerLocation :=
  r.2.memory.get? r.1

/-- C9: caller-location construction is deterministic and injective —
whenever two calls return values, the location records those values
reference are equal exactly when the `(file, line, col)` triples are
equal, so identical triples always produce records comparing equal and
distinct triples never collide. -/
theorem C9_caller_location_stable (intern_is_err : EvalCx → Nat → Bool)
    (f1 : Symbol) (l1 c1 : Nat) (f2 : Symbol) (l2 c2 : Nat)
    (r1 r2 : Nat × EvalCx)
    (h1 : const_caller_location intern_is_err f1 l1 c1 = .ok r1)
    (h2 : const_caller_location intern_is_err f2 l2 c2 = .ok r2) :
    locationRecord r1 = locationRecord r2 ↔ (f1 = f2 ∧ l1 = l2 ∧ c1 = c2) := by
  simp only [const_caller_location, mk_eval_cx, alloc_caller_location,
    List.nil_append] at h1 h2
  split at h1
  · cases h1
  · split at h2
    · cases h2
    · cases h1
      cases h2
      simp only [locationRecord, List.get?]
      constructor
      · intro h
        injection h with h
        injection h with hf hl hc
        exact ⟨hf, hl, hc⟩
      · intro h
        obtain ⟨hf, hl, hc⟩ := h
        rw [hf, hl, hc]

/-- Witness for C9: with an intern step that never fails, two calls at
the same concrete triple yield pointers denoting equal records. -/
theorem C9_caller_location_stable_witness :
    (locationRecord (0, ⟨[⟨⟨1⟩, 2, 3⟩]⟩) = locationRecord (0, ⟨[⟨⟨1⟩, 2, 3⟩]⟩) ↔
      ((⟨1⟩ : Symbol) = ⟨1⟩ ∧ (2 : Nat) = 2 ∧ (3 : Nat) = 3)) :=
  C9_caller_location_stable (fun _ _ => false) ⟨1⟩ 2 3 ⟨1⟩ 2 3
    (0, ⟨[⟨⟨1⟩, 2, 3⟩]⟩) (0, ⟨[⟨⟨1⟩, 2, 3⟩]⟩) rfl rfl

end RustcConstEval
